import Mathlib

/-!
Shallow embedding of `src/pandas-df-expand.py` (functions `split`, `join`,
`expand_df`).  Strings are modelled as `List Char`; Python's `str.split` /
`str.join` are modelled by `pySplit` / `pyJoin`; Python slicing with possibly
negative bounds by `pyStop`; a pandas `DataFrame` by an ordered list of column
labels plus row-major cells; Python object identity (needed for the
no-mutation claim) by an explicit store of dataframe objects.
-/

/-- Strings of the Python source, modelled as lists of characters. -/
abbrev Str := List Char

/-- Python `sep.join(xs)`: the elements of `xs` interleaved with `sep`. -/
def pyJoin (sep : Str) : List Str → Str
  | [] => []
  | [x] => x
  | x :: y :: t => x ++ sep ++ pyJoin sep (y :: t)

/-- Python `data.split(sep)` for a non-empty `sep`: cut `data` at every
leftmost non-overlapping occurrence of `sep`, keeping empty fragments. -/
def pySplit (sep : Str) : Str → List Str
  | [] => [[]]
  | c :: rest =>
    if h : sep ≠ [] ∧ sep.isPrefixOf (c :: rest) then
      [] :: pySplit sep ((c :: rest).drop sep.length)
    else
      match pySplit sep rest with
      | [] => [[c]]
      | p :: ps => (c :: p) :: ps
termination_by data => data.length
decreasing_by
  · have hs : 0 < sep.length := List.length_pos.mpr h.1
    simp only [List.length_drop, List.length_cons]
    omega
  · simp only [List.length_cons]
    omega

/-- Errors of the Python runtime that the source can raise. -/
inductive PdError where
  | valueError (msg : String)
  | keyError (msg : String)
  | indexError (msg : String)
  | attributeError (msg : String)
deriving DecidableEq, Repr

/-- Decidable equality of `Except` results, used to evaluate the model at
concrete inputs. -/
instance {e a : Type} [DecidableEq e] [DecidableEq a] : DecidableEq (Except e a) := fun x y =>
  match x, y with
  | .error u, .error v => decidable_of_iff (u = v) (by simp)
  | .ok u, .ok v => decidable_of_iff (u = v) (by simp)
  | .error _, .ok _ => isFalse (fun h => Except.noConfusion h)
  | .ok _, .error _ => isFalse (fun h => Except.noConfusion h)

/-- Source `split(data, separator)`: empty text gives an empty list before
`str.split` is ever called; a non-empty text with an empty separator raises
Python's `ValueError: empty separator`. -/
def split (data separator : Str) : Except PdError (List Str) :=
  if data = [] then .ok []
  else if separator = [] then .error (.valueError "empty separator")
  else .ok (pySplit separator data)

/-- Total companion of `split` (the value `split` returns whenever it does not
raise), used to phrase theorems. -/
def splitSimple (data separator : Str) : List Str :=
  if data = [] then [] else pySplit separator data

/-- Python bound normalisation for `l[0:j]` / `l[i:]`: a negative bound counts
from the end (clamped at 0), a non-negative one is clamped at the length. -/
def pyStop (len : Nat) (j : Int) : Nat :=
  if j < 0 then ((len : Int) + j).toNat else min j.toNat len

/-- Source `join(data, join_char, max_column_split, missing_value)`:
`data[0:max_column_split-1]`, then the `join_char`-join of
`data[max_column_split-1:]` when that join is non-empty, then enough copies of
`missing_value` to reach `max_column_split` elements (`itertools.repeat` of a
negative count being empty). -/
def join (data : List Str) (join_char : Str) (max_column_split : Int)
    (missing_value : Str) : List Str :=
  let normal := data.take (pyStop data.length (max_column_split - 1))
  let joinedStr := pyJoin join_char (data.drop (pyStop data.length (max_column_split - 1)))
  let joined := if joinedStr ≠ [] then [joinedStr] else []
  let missing := List.replicate (max_column_split - (data.length : Int)).toNat missing_value
  normal ++ joined ++ missing

/-- A pandas cell as the source uses it: either a piece of text or (in the
`expand=False` output) a list of text fragments. -/
inductive Cell where
  | str (s : Str)
  | strList (l : List Str)
deriving DecidableEq, Repr

/-- A pandas `DataFrame`: ordered column labels and row-major cells, rows
aligned with the labels by position. -/
structure DataFrame where
  cols : List Str
  rows : List (List Cell)
deriving DecidableEq, Repr

/-- All rows have as many cells as there are column labels. -/
def DataFrame.WF (df : DataFrame) : Prop :=
  ∀ r ∈ df.rows, r.length = df.cols.length

/-- A value the source can return: a `DataFrame`, or (for
`expand=False, new_data_only=True`) a named pandas `Series`. -/
inductive PdValue where
  | df (d : DataFrame)
  | series (name : Str) (values : List Cell)
deriving DecidableEq, Repr

/-- `df.columns.get_loc(name)`: first position carrying `name`, `KeyError`
when the label is absent. -/
def getLoc (cols : List Str) (name : Str) : Except PdError Nat :=
  match cols with
  | [] => .error (.keyError "not in index")
  | c :: rest => if c = name then .ok 0 else (getLoc rest name).map (· + 1)

/-- Python positional index normalisation with bound check: negative indices
count from the end, out-of-range indices raise `IndexError`. -/
def pyNormIdx (len : Nat) (i : Int) : Except PdError Nat :=
  let j : Int := if i < 0 then (len : Int) + i else i
  if 0 ≤ j ∧ j < (len : Int) then .ok j.toNat
  else .error (.indexError "single positional indexer is out-of-bounds")

/-- `df.columns[i]` with Python indexing. -/
def pyColLabel (cols : List Str) (i : Int) : Except PdError Str :=
  (pyNormIdx cols.length i).map (fun j => cols.getD j [])

/-- `df.iloc[:, i]`: the cells of the `i`-th column, top to bottom. -/
def pyIlocCol (df : DataFrame) (i : Int) : Except PdError (List Cell) :=
  (pyNormIdx df.cols.length i).map (fun j => df.rows.map (fun r => r.getD j (Cell.str [])))

/-- Extracting the text of a cell; `split` on a non-text cell raises
`AttributeError` in Python. -/
def cellStr : Cell → Except PdError Str
  | .str s => .ok s
  | .strList _ => .error (.attributeError "object has no attribute split")

/-- `Series.apply` over a fallible per-element function: stop at the first
raised error (modelling the exception escaping `apply`). -/
def mapME (f : α → Except PdError β) : List α → Except PdError (List β)
  | [] => .ok []
  | x :: xs =>
    match f x with
    | .error e => .error e
    | .ok b => (mapME f xs).map (fun l => b :: l)

/-- Python's builtin `max` over a list of naturals: `ValueError` when empty. -/
def pyMax : List Nat → Except PdError Nat
  | [] => .error (.valueError "max() arg is an empty sequence")
  | x :: xs => .ok (xs.foldl Nat.max x)

/-- `df.drop(name, axis=1)`: remove every column labelled `name` together
with the corresponding cell of each row. -/
def dropCol (df : DataFrame) (name : Str) : DataFrame :=
  { cols := df.cols.filter (fun c => c != name),
    rows := df.rows.map (fun row =>
      ((df.cols.zip row).filter (fun p => p.1 != name)).map Prod.snd) }

/-- `df[name] = vals`: replace the cells of every column labelled `name`
in place, or append a fresh column at the right end when the label is new. -/
def setCol (df : DataFrame) (name : Str) (vals : List Cell) : DataFrame :=
  if df.cols.contains name then
    { cols := df.cols,
      rows := df.rows.zipWith (fun row v =>
        (df.cols.zip row).map (fun p => if p.1 = name then v else p.2)) vals }
  else
    { cols := df.cols ++ [name],
      rows := df.rows.zipWith (fun row v => row ++ [v]) vals }

/-- `pd.concat([a, b], axis=1)` for frames sharing the default row index. -/
def concatCols (a b : DataFrame) : DataFrame :=
  { cols := a.cols ++ b.cols, rows := a.rows.zipWith (fun r s => r ++ s) b.rows }

/-- The generated label `"{base}_{i}"`. -/
def colLabel (base : Str) (i : Nat) : Str := base ++ '_' :: (Nat.repr i).data

/-- The Python heap restricted to dataframe objects; an object is named by
its position, `alloc` appends, `writeObj` mutates in place. -/
structure Store where
  objs : List DataFrame
deriving DecidableEq, Repr

/-- Allocate a fresh dataframe object, returning its reference. -/
def alloc (st : Store) (d : DataFrame) : Store × Nat :=
  ({ objs := st.objs ++ [d] }, st.objs.length)

/-- Read the object a reference points to. -/
def readObj (st : Store) (r : Nat) : DataFrame :=
  (st.objs.get? r).getD { cols := [], rows := [] }

/-- Overwrite the object a reference points to (in-place mutation). -/
def writeObj (st : Store) (r : Nat) (d : DataFrame) : Store :=
  { objs := st.objs.set r d }

def msgNeedOne : String := "you need to specify either column_name or column_index"

def msgBoth : String := "you cannot specify both column_name and column_index"

def msgNonneg : String := "max_column_split must be greater or equal to 0"

def msgMaxEmpty : String := "max() arg is an empty sequence"

def msgLenMismatch : String := "Length of values does not match length of index"

/-- Body of `expand_df` after argument validation: resolve the selector,
copy the frame, split the selected column, optionally drop it, then branch on
`expand` / `new_data_only` exactly as the source does.  `df = df.copy()` and
`df.drop` allocate fresh objects; `df[new_column_name] = split_data` is the
only in-place write. -/
def expand_df_core (st : Store) (ref : Nat) (column_name : Str) (column_index : Int)
    (separator join_char missing_value new_column_name : Str) (expand drop_old : Bool)
    (max_column_split : Int) (new_data_only : Bool) : Store × Except PdError PdValue :=
  let df0 := readObj st ref
  -- if column_index != -1: column_name = df.columns[column_index]
  -- else: column_index = df.columns.get_loc(column_name)
  match (if column_index ≠ -1 then
            (pyColLabel df0.cols column_index).map (fun n => (n, column_index))
          else
            (getLoc df0.cols column_name).map (fun (i : Nat) => (column_name, (i : Int)))) with
  | .error e => (st, .error e)
  | .ok (column_name, column_index) =>
    let new_column_name := if new_column_name = [] then column_name else new_column_name
    let join_char := if join_char = [] then separator else join_char
    -- df = df.copy()
    let st1 := (alloc st df0).1
    let cref := (alloc st df0).2
    -- split_data = df.iloc[:, column_index].apply(lambda x: split(x, separator))
    match (pyIlocCol (readObj st1 cref) column_index).bind
        (mapME (fun c => (cellStr c).bind (fun s => split s separator))) with
    | .error e => (st1, .error e)
    | .ok split_data =>
      -- if drop_old: df = df.drop(column_name, axis=1)
      let st2 := if drop_old then (alloc st1 (dropCol (readObj st1 cref) column_name)).1 else st1
      let dref := if drop_old then (alloc st1 (dropCol (readObj st1 cref) column_name)).2 else cref
      if expand then
        match pyMax (split_data.map List.length) with
        | .error e => (st2, .error e)
        | .ok max_n =>
          let w : Int := if max_column_split = 0 then (max_n : Int) else max_column_split
          let name_list := (List.range w.toNat).map (colLabel new_column_name)
          match mapME (fun x =>
              let vals := join x join_char w missing_value
              if vals.length = name_list.length then Except.ok vals
              else .error (.valueError msgLenMismatch)) split_data with
          | .error e => (st2, .error e)
          | .ok expanded_rows =>
            let expanded_df : DataFrame :=
              { cols := name_list, rows := expanded_rows.map (fun r => r.map Cell.str) }
            if new_data_only then
              ((alloc st2 expanded_df).1, .ok (.df expanded_df))
            else
              let res := concatCols (readObj st2 dref) expanded_df
              ((alloc st2 res).1, .ok (.df res))
      else
        if new_data_only then
          (st2, .ok (.series column_name (split_data.map Cell.strList)))
        else
          let mutated := setCol (readObj st2 dref) new_column_name (split_data.map Cell.strList)
          (writeObj st2 dref mutated, .ok (.df mutated))

/-- Source `expand_df` over the object store: the three argument-validation
checks in source order (with Python's short-circuit `and`, so `get_loc` only
runs when both selectors are given), then the body. -/
def expand_df_st (st : Store) (ref : Nat) (column_name : Str) (column_index : Int)
    (separator join_char missing_value new_column_name : Str) (expand drop_old : Bool)
    (max_column_split : Int) (new_data_only : Bool) : Store × Except PdError PdValue :=
  let df0 := readObj st ref
  if column_name = [] ∧ column_index = -1 then (st, .error (.valueError msgNeedOne))
  else
    match (if column_name ≠ [] ∧ column_index ≠ -1 then
              (getLoc df0.cols column_name).map (fun (l : Nat) => column_index != (l : Int))
            else .ok false) with
    | .error e => (st, .error e)
    | .ok mismatch =>
      if mismatch then (st, .error (.valueError msgBoth))
      else if max_column_split < 0 then (st, .error (.valueError msgNonneg))
      else expand_df_core st ref column_name column_index separator join_char
        missing_value new_column_name expand drop_old max_column_split new_data_only

/-- Source `expand_df` as a pure function: run the store version on a
one-object heap holding the caller's frame. -/
def expand_df (df : DataFrame) (column_name : Str) (column_index : Int)
    (separator join_char missing_value new_column_name : Str) (expand drop_old : Bool)
    (max_column_split : Int) (new_data_only : Bool) : Except PdError PdValue :=
  (expand_df_st { objs := [df] } 0 column_name column_index separator join_char
    missing_value new_column_name expand drop_old max_column_split new_data_only).2

/-- The value of Python's builtin `max` on a non-empty list (0 on the empty
list, which makes `max` raise instead). -/
def maxList : List Nat → Nat
  | [] => 0
  | x :: xs => xs.foldl Nat.max x

/-- The tail of `expand_df` after selector resolution and column splitting,
as a pure function of the split data (established below as an equality, not
assumed): base-frame choice, `expand` branch with auto-width and the
per-row width check, `new_data_only` composition. -/
def afterSplitExpand (df : DataFrame) (cn : Str) (split_data : List (List Str))
    (sep jc mv ncn : Str) (exp dro : Bool) (k : Int) (ndo : Bool) :
    Except PdError PdValue :=
  let ncn2 := if ncn = [] then cn else ncn
  let jc2 := if jc = [] then sep else jc
  let df1 := if dro then dropCol df cn else df
  if exp then
    match pyMax (split_data.map List.length) with
    | .error e => .error e
    | .ok max_n =>
      let w : Int := if k = 0 then (max_n : Int) else k
      let name_list := (List.range w.toNat).map (colLabel ncn2)
      match mapME (fun x =>
          let vals := join x jc2 w mv
          if vals.length = name_list.length then Except.ok vals
          else .error (.valueError msgLenMismatch)) split_data with
      | .error e => .error e
      | .ok expanded_rows =>
        let expanded_df : DataFrame :=
          { cols := name_list, rows := expanded_rows.map (fun r => r.map Cell.str) }
        if ndo then .ok (.df expanded_df)
        else .ok (.df (concatCols df1 expanded_df))
  else
    if ndo then .ok (.series cn (split_data.map Cell.strList))
    else .ok (.df (setCol df1 ncn2 (split_data.map Cell.strList)))

/-- The cells of the (first) column labelled `name`, top to bottom. -/
def getColVals (df : DataFrame) (name : Str) : List Cell :=
  match getLoc df.cols name with
  | .ok i => df.rows.map (fun r => r.getD i (Cell.str []))
  | .error _ => []

/-- The column selector is missing: neither a name nor an index was given. -/
def selectorMissing (cn : Str) (ci : Int) : Prop := cn = [] ∧ ci = -1

/-- Both selectors given and the raw index differs from the name's position
(the source compares the raw integer, without Python negative-index
normalisation). -/
def selectorAmbiguous (cols : List Str) (cn : Str) (ci : Int) : Prop :=
  cn ≠ [] ∧ ci ≠ -1 ∧ ∃ l, getLoc cols cn = .ok l ∧ ci ≠ (l : Int)

/-- The selector passes validation: it is not missing, and when both are
given the name is present with exactly the raw index as its position. -/
def selectorResolvable (cols : List Str) (cn : Str) (ci : Int) : Prop :=
  ¬ selectorMissing cn ci ∧
    (cn ≠ [] ∧ ci ≠ -1 → ∃ l, getLoc cols cn = .ok l ∧ ci = (l : Int))

/-- The result is one of the three argument-validation `ValueError`s the
source raises itself. -/
def isArgValidationError (r : Except PdError PdValue) : Prop :=
  r = .error (.valueError msgNeedOne) ∨ r = .error (.valueError msgBoth) ∨
    r = .error (.valueError msgNonneg)

example : join [['1'], ['2']] ['|'] 2 ['N', 'A'] = [['1'], ['2']] := by decide
example : join [['1'], ['2'], ['3']] ['|'] 2 ['N', 'A'] = [['1'], ['2', '|', '3']] := by decide
example : join [['1'], ['2']] ['|'] 3 ['N', 'A'] = [['1'], ['2'], ['N', 'A']] := by decide

lemma pyStop_nonneg (len : Nat) (j : Int) (h : 0 ≤ j) : pyStop len j = min j.toNat len := by
  simp [pyStop, not_lt.mpr h]

lemma join_def_pos (parts : List Str) (jc mv : Str) (w : Int) (hw : 1 ≤ w) :
    join parts jc w mv =
      parts.take (min (w - 1).toNat parts.length)
        ++ (if pyJoin jc (parts.drop (min (w - 1).toNat parts.length)) ≠ [] then
              [pyJoin jc (parts.drop (min (w - 1).toNat parts.length))] else [])
        ++ List.replicate (w - (parts.length : Int)).toNat mv := by
  simp only [join, pyStop_nonneg parts.length (w - 1) (by omega)]

lemma join_nil (jc mv : Str) (w : Int) : join [] jc w mv = List.replicate w.toNat mv := by
  simp [join, pyJoin, pyStop]

lemma pyJoin_ne_nil (jc : Str) (parts : List Str) (hne : parts ≠ [])
    (hp : ∀ p ∈ parts, p ≠ []) : pyJoin jc parts ≠ [] := by
  match parts with
  | [x] =>
    have := hp x (by simp)
    simpa [pyJoin] using this
  | x :: y :: t =>
    have hx : x ≠ [] := hp x (by simp)
    cases x with
    | nil => exact absurd rfl hx
    | cons a s => simp [pyJoin]

lemma join_length (parts : List Str) (jc mv : Str) (w : Int) (hw : 1 ≤ w)
    (h : parts.length < w.toNat ∨ pyJoin jc (parts.drop (w.toNat - 1)) ≠ []) :
    (join parts jc w mv).length = w.toNat := by
  rw [join_def_pos parts jc mv w hw]
  rcases Nat.lt_or_ge parts.length w.toNat with hn | hn
  · have hmin : min (w - 1).toNat parts.length = parts.length := by omega
    rw [hmin, List.take_length, List.drop_length]
    simp only [pyJoin, ne_eq, not_true_eq_false, if_false]
    simp only [List.append_nil, List.length_append, List.length_replicate]
    omega
  · have hmin : min (w - 1).toNat parts.length = w.toNat - 1 := by omega
    rw [hmin]
    have hne : pyJoin jc (parts.drop (w.toNat - 1)) ≠ [] := by
      rcases h with h | h
      · omega
      · exact h
    rw [if_pos hne]
    simp only [List.length_append, List.length_take, List.length_replicate,
      List.length_singleton]
    omega

lemma join_collapse (parts : List Str) (jc mv : Str) (w : Int) (hw : 1 ≤ w)
    (hn : w.toNat ≤ parts.length) (hne : pyJoin jc (parts.drop (w.toNat - 1)) ≠ []) :
    join parts jc w mv = parts.take (w.toNat - 1) ++ [pyJoin jc (parts.drop (w.toNat - 1))] := by
  rw [join_def_pos parts jc mv w hw]
  have hmin : min (w - 1).toNat parts.length = w.toNat - 1 := by omega
  rw [hmin, if_pos hne]
  have hzero : (w - (parts.length : Int)).toNat = 0 := by omega
  rw [hzero]
  simp

lemma join_prefix (parts : List Str) (jc mv : Str) (w : Int) (hw : 1 ≤ w) :
    ∀ i < min parts.length (w.toNat - 1), (join parts jc w mv).get? i = parts.get? i := by
  intro i hi
  rw [join_def_pos parts jc mv w hw, List.append_assoc]
  have hlen : i < (parts.take (min (w - 1).toNat parts.length)).length := by
    simp only [List.length_take]
    omega
  rw [List.get?_append hlen, List.get?_take (by omega : i < min (w - 1).toNat parts.length)]

lemma pySplit_ne_nil (sep : Str) : ∀ data : Str, pySplit sep data ≠ [] := by
  intro data
  cases data with
  | nil => simp [pySplit]
  | cons c rest =>
    rw [pySplit]
    split
    · simp
    · split <;> simp

lemma pyJoin_cons (sep : Str) (c : Char) (p : Str) (ps : List Str) :
    pyJoin sep ((c :: p) :: ps) = c :: pyJoin sep (p :: ps) := by
  cases ps with
  | nil => simp [pyJoin]
  | cons y t => simp [pyJoin]

lemma pyJoin_pySplit (sep : Str) (hs : sep ≠ []) :
    ∀ data : Str, pyJoin sep (pySplit sep data) = data := by
  suffices H : ∀ n (data : Str), data.length ≤ n → pyJoin sep (pySplit sep data) = data by
    exact fun data => H data.length data le_rfl
  intro n
  induction n with
  | zero =>
    intro data hlen
    have hd : data = [] := by
      cases data
      · rfl
      · simp at hlen
    subst hd
    simp [pySplit, pyJoin]
  | succ n ih =>
    intro data hlen
    cases data with
    | nil => simp [pySplit, pyJoin]
    | cons c rest =>
      rw [pySplit]
      by_cases hpre : sep.isPrefixOf (c :: rest)
      · rw [dif_pos ⟨hs, hpre⟩]
        have hslen : 0 < sep.length := List.length_pos.mpr hs
        have hrec : pyJoin sep (pySplit sep ((c :: rest).drop sep.length)) = (c :: rest).drop sep.length := by
          apply ih
          simp only [List.length_drop, List.length_cons]
          simp only [List.length_cons] at hlen
          omega
        obtain ⟨y, t, hyt⟩ : ∃ y t, pySplit sep ((c :: rest).drop sep.length) = y :: t := by
          rcases h' : pySplit sep ((c :: rest).drop sep.length) with _ | ⟨y, t⟩
          · exact absurd h' (pySplit_ne_nil sep _)
          · exact ⟨y, t, rfl⟩
        rw [hyt]
        rw [hyt] at hrec
        show [] ++ sep ++ pyJoin sep (y :: t) = c :: rest
        rw [List.nil_append, hrec]
        obtain ⟨tl, htl⟩ := List.isPrefixOf_iff_prefix.mp hpre
        conv_rhs => rw [← htl]
        rw [← htl]
        simp [List.drop_left]
      · rw [dif_neg (by tauto)]
        have hrec : pyJoin sep (pySplit sep rest) = rest := by
          apply ih
          simp only [List.length_cons] at hlen
          omega
        rcases h' : pySplit sep rest with _ | ⟨p, ps⟩
        · exact absurd h' (pySplit_ne_nil sep rest)
        · rw [h'] at hrec
          rw [pyJoin_cons, hrec]

/-- C1 counterexample: with `width = 0` and the non-empty part list `["a"]`,
the row normalizer does not return the empty sequence (Python's
`data[0:-1]` / `data[-1:]` slices keep the data), so its result length is not
the requested width. -/
theorem C1_join_width_zero_cex :
    join [['a']] ['|'] 0 ['N', 'A'] ≠ [] ∧ (join [['a']] ['|'] 0 ['N', 'A']).length ≠ 0 := by
  decide

/-- C1 (amended): for every width ≥ 1 and every part list whose elements are
non-empty, `join` returns exactly `width` elements; `width` copies of the
missing value when the parts are empty; and the first `width − 1` parts
followed by the joined remainder when there are at least `width` parts.  The
original claim fails at `width = 0` with non-empty parts, where the result is
not the empty sequence. -/
theorem C1_join_length_amended (parts : List Str) (jc mv : Str) (w : Int)
    (hw : 1 ≤ w) (hp : ∀ p ∈ parts, p ≠ []) :
    (join parts jc w mv).length = w.toNat
    ∧ (parts = [] → join parts jc w mv = List.replicate w.toNat mv)
    ∧ (w.toNat ≤ parts.length →
        join parts jc w mv =
          parts.take (w.toNat - 1) ++ [pyJoin jc (parts.drop (w.toNat - 1))]) := by
  have htail : w.toNat ≤ parts.length → pyJoin jc (parts.drop (w.toNat - 1)) ≠ [] := by
    intro hn
    apply pyJoin_ne_nil
    · have : (parts.drop (w.toNat - 1)).length ≠ 0 := by
        simp only [List.length_drop]
        omega
      intro hc
      exact this (by rw [hc]; rfl)
    · intro p hpmem
      exact hp p (List.mem_of_mem_drop hpmem)
  refine ⟨?_, ?_, ?_⟩
  · apply join_length parts jc mv w hw
    rcases Nat.lt_or_ge parts.length w.toNat with hn | hn
    · exact Or.inl hn
    · exact Or.inr (htail hn)
  · intro hnil
    subst hnil
    exact join_nil jc mv w
  · intro hn
    exact join_collapse parts jc mv w hw hn (htail hn)

/-- C1 witness: the amended statement at parts `["a", "b", "c"]`, width 2. -/
theorem C1_join_length_amended_witness :
    (join [['a'], ['b'], ['c']] ['|'] 2 ['N', 'A']).length = 2 ∧
      join [['a'], ['b'], ['c']] ['|'] 2 ['N', 'A'] = [['a'], ['b', '|', 'c']] := by
  have h := C1_join_length_amended [['a'], ['b'], ['c']] ['|'] ['N', 'A'] 2
    (by decide) (by decide)
  refine ⟨h.1, ?_⟩
  have hc := h.2.2 (by decide)
  simpa using hc

/-- C8 counterexample: for the non-empty part list `[""]` with width 1, the
joined value is the empty string, so the source drops it and returns the empty
sequence rather than the claimed one-element sequence. -/
theorem C8_empty_join_cex :
    join [([] : Str)] ['|'] 1 ['N', 'A'] ≠ [pyJoin ['|'] [([] : Str)]] := by
  decide

/-- C8 (amended): for every non-empty part list whose join with the join
character is a non-empty string (for instance when every part is non-empty),
the row normalizer at width 1 collapses all parts into the single joined
value.  The original claim fails when the joined value is the empty string,
which the source silently drops. -/
theorem C8_width_one_amended (parts : List Str) (jc mv : Str)
    (hne : parts ≠ []) (hj : pyJoin jc parts ≠ []) :
    join parts jc 1 mv = [pyJoin jc parts] := by
  have hlen : 0 < parts.length := List.length_pos.mpr hne
  have h := join_collapse parts jc mv 1 (by omega) (by omega) (by simpa using hj)
  simpa using h

/-- C8 witness: the amended statement at parts `["x", "y"]`. -/
theorem C8_width_one_amended_witness :
    join [['x'], ['y']] [','] 1 ['N', 'A'] = [pyJoin [','] [['x'], ['y']]] :=
  C8_width_one_amended [['x'], ['y']] [','] ['N', 'A'] (by decide) (by decide)

/-- C9: splitting the empty text returns the empty sequence for every
separator (the source returns before ever calling `str.split`). -/
theorem C9_split_empty (sep : Str) : split [] sep = .ok [] := rfl

/-- C7: splitting any text on a non-empty separator and re-joining the parts
with that separator restores the text exactly (with no further proviso: the
empty text splits to no parts, which re-join to the empty text). -/
theorem C7_split_join_roundtrip (text sep : Str) (hs : sep ≠ []) :
    (split text sep).map (pyJoin sep) = .ok text := by
  unfold split
  by_cases h : text = []
  · subst h
    simp [pyJoin, Except.map]
  · simp [h, hs, Except.map, pyJoin_pySplit sep hs text]

/-- C7 witness: the round trip at text `"a|b"` and separator `"|"`. -/
theorem C7_split_join_roundtrip_witness :
    (split ['a', '|', 'b'] ['|']).map (pyJoin ['|']) = .ok ['a', '|', 'b'] :=
  C7_split_join_roundtrip ['a', '|', 'b'] ['|'] (by decide)

/-- C10 counterexample: a non-empty join character is not enough: with parts
`["a", ""]` and width 2 the joined trailing value is empty and dropped, so the
result length is 1, not the width. -/
theorem C10_disjunction_cex :
    (join [['a'], ([] : Str)] ['|'] 2 ['N', 'A']).length ≠ 2 := by
  decide

/-- C10 (amended): for every width ≥ 1 and every part list whose elements are
all non-empty (the non-empty join character alone does not suffice, as the
counterexample shows), the row normalizer returns exactly `width` elements and
its first `min(len(parts), width − 1)` elements are the corresponding parts
verbatim. -/
theorem C10_prefix_amended (parts : List Str) (jc mv : Str) (w : Int)
    (hw : 1 ≤ w) (hp : ∀ p ∈ parts, p ≠ []) :
    (join parts jc w mv).length = w.toNat
    ∧ ∀ i < min parts.length (w.toNat - 1),
        (join parts jc w mv).get? i = parts.get? i := by
  constructor
  · apply join_length parts jc mv w hw
    rcases Nat.lt_or_ge parts.length w.toNat with hn | hn
    · exact Or.inl hn
    · refine Or.inr (pyJoin_ne_nil jc _ ?_ ?_)
      · have : (parts.drop (w.toNat - 1)).length ≠ 0 := by
          simp only [List.length_drop]
          omega
        intro hc
        exact this (by rw [hc]; rfl)
      · intro p hpmem
        exact hp p (List.mem_of_mem_drop hpmem)
  · exact join_prefix parts jc mv w hw

/-- C10 witness: the amended statement at parts `["a", "b", "c"]`, width 2. -/
theorem C10_prefix_amended_witness :
    (join [['a'], ['b'], ['c']] ['|'] 2 ['N', 'A']).length = 2 ∧
      (join [['a'], ['b'], ['c']] ['|'] 2 ['N', 'A']).get? 0 = some ['a'] := by
  have h := C10_prefix_amended [['a'], ['b'], ['c']] ['|'] ['N', 'A'] 2
    (by decide) (by decide)
  refine ⟨h.1, ?_⟩
  have := h.2 0 (by decide)
  simpa using this

lemma store_get_alloc {st : Store} {d : DataFrame} {r : Nat} (h : r < st.objs.length) :
    ((alloc st d).1).objs[r]? = st.objs[r]? := by
  simp only [alloc]
  exact List.getElem?_append_left h

lemma store_len_alloc (st : Store) (d : DataFrame) :
    ((alloc st d).1).objs.length = st.objs.length + 1 := by
  simp [alloc]

lemma store_ref_alloc (st : Store) (d : DataFrame) : (alloc st d).2 = st.objs.length := rfl

lemma store_get_write {st : Store} {r' : Nat} {d : DataFrame} {r : Nat} (h : r ≠ r') :
    (writeObj st r' d).objs[r]? = st.objs[r]? := by
  simp only [writeObj]
  exact List.getElem?_set_ne (fun hh => h hh.symm)

lemma expand_df_core_preserves (st : Store) (ref : Nat) (cn : Str) (ci : Int)
    (sep jc mv ncn : Str) (exp dro : Bool) (k : Int) (ndo : Bool) (r : Nat)
    (h : r < st.objs.length) :
    ((expand_df_core st ref cn ci sep jc mv ncn exp dro k ndo).1).objs[r]? =
      st.objs[r]? := by
  have g1 : ∀ d, ((alloc st d).1).objs[r]? = st.objs[r]? := fun d => store_get_alloc h
  have g2 : ∀ d d', ((alloc (alloc st d).1 d').1).objs[r]? = ((alloc st d).1).objs[r]? :=
    fun d d' => store_get_alloc (by rw [store_len_alloc]; omega)
  have g3 : ∀ d d' d'',
      ((alloc (alloc (alloc st d).1 d').1 d'').1).objs[r]? =
        ((alloc (alloc st d).1 d').1).objs[r]? :=
    fun d d' d'' => store_get_alloc (by rw [store_len_alloc, store_len_alloc]; omega)
  have gw1 : ∀ d m, (writeObj (alloc st d).1 (alloc st d).2 m).objs[r]? =
      ((alloc st d).1).objs[r]? :=
    fun d m => store_get_write (by rw [store_ref_alloc]; omega)
  have gw2 : ∀ d d' m,
      (writeObj (alloc (alloc st d).1 d').1 (alloc (alloc st d).1 d').2 m).objs[r]? =
        ((alloc (alloc st d).1 d').1).objs[r]? :=
    fun d d' m => store_get_write (by rw [store_ref_alloc, store_len_alloc]; omega)
  simp only [expand_df_core]
  split
  · rfl
  · split
    · exact g1 _
    · repeat' split
      all_goals simp only [g1, g2, g3, gw1, gw2]

/-- C6: for every store, caller frame, and option combination, after
`expand_df` runs (returning a value or an error) the caller's original
dataframe object is untouched: the only in-place write in the source
(`df[new_column_name] = split_data`) targets the copy made by `df.copy()`,
never the caller's object. -/
theorem C6_no_mutation (st : Store) (ref : Nat) (cn : Str) (ci : Int)
    (sep jc mv ncn : Str) (exp dro : Bool) (k : Int) (ndo : Bool)
    (h : ref < st.objs.length) :
    ((expand_df_st st ref cn ci sep jc mv ncn exp dro k ndo).1).objs[ref]? =
      st.objs[ref]? := by
  simp only [expand_df_st]
  split
  · rfl
  · split
    · rfl
    · split
      · rfl
      · split
        · rfl
        · exact expand_df_core_preserves st ref cn ci sep jc mv ncn exp dro k ndo ref h

/-- C6 witness: a one-object store through the in-place-mutating branch
(`expand=False, new_data_only=False`). -/
theorem C6_no_mutation_witness :
    ((expand_df_st { objs := [{ cols := [['A']], rows := [] }] } 0 ['A'] (-1) ['|'] []
        ['N', 'A'] [] false true 0 false).1).objs[0]? =
      ({ objs := [{ cols := [['A']], rows := [] }] } : Store).objs[0]? :=
  C6_no_mutation { objs := [{ cols := [['A']], rows := [] }] } 0 ['A'] (-1) ['|'] []
    ['N', 'A'] [] false true 0 false (by decide)

lemma getLoc_ok_lt {cols : List Str} {n : Str} {i : Nat} (h : getLoc cols n = .ok i) :
    i < cols.length := by
  induction cols generalizing i with
  | nil => simp [getLoc] at h
  | cons c rest ih =>
    rw [getLoc] at h
    by_cases hc : c = n
    · simp [hc] at h
      simp only [List.length_cons]
      omega
    · rw [if_neg hc] at h
      rcases h' : getLoc rest n with e | j
      · rw [h'] at h
        simp [Except.map] at h
      · rw [h'] at h
        simp only [Except.map] at h
        have := ih h'
        simp at h
        simp [List.length_cons]
        omega

lemma getLoc_error {cols : List Str} {n : Str} {e : PdError} (h : getLoc cols n = .error e) :
    e = .keyError "not in index" := by
  induction cols with
  | nil =>
    simp [getLoc] at h
    exact h.symm
  | cons c rest ih =>
    rw [getLoc] at h
    by_cases hc : c = n
    · simp [hc] at h
    · rw [if_neg hc] at h
      rcases h' : getLoc rest n with e' | j
      · rw [h'] at h
        simp [Except.map] at h
        subst h
        exact ih h'
      · rw [h'] at h
        simp [Except.map] at h

lemma split_eq_splitSimple {t sep : Str} (hsep : sep ≠ []) :
    split t sep = .ok (splitSimple t sep) := by
  unfold split splitSimple
  by_cases h : t = [] <;> simp [h, hsep]

lemma mapME_split_strs (sep : Str) (hsep : sep ≠ []) (texts : List Str) :
    mapME (fun c => (cellStr c).bind (fun s => split s sep)) (texts.map Cell.str) =
      .ok (texts.map (fun t => splitSimple t sep)) := by
  induction texts with
  | nil => rfl
  | cons t ts ih =>
    simp only [List.map_cons, mapME, ih]
    simp [cellStr, Except.bind, split_eq_splitSimple hsep, Except.map]

lemma pyIlocCol_ok {df : DataFrame} {l : Nat} (hl : l < df.cols.length) :
    pyIlocCol df (l : Int) = .ok (df.rows.map (fun r => r.getD l (Cell.str []))) := by
  have h0 : ¬ ((l : Int) < 0) := by omega
  have h1 : (0 : Int) ≤ (l : Int) ∧ (l : Int) < (df.cols.length : Int) := by omega
  simp [pyIlocCol, pyNormIdx, h0, h1, Except.map]

lemma pyMax_eq {l : List Nat} (h : l ≠ []) : pyMax l = .ok (maxList l) := by
  cases l with
  | nil => exact absurd rfl h
  | cons x xs => rfl

lemma expand_df_st_happy (st : Store) (ref : Nat) (cn : Str) (sep jc mv ncn : Str)
    (exp dro : Bool) (k : Int) (ndo : Bool) (hcn : cn ≠ []) (hk : 0 ≤ k) :
    expand_df_st st ref cn (-1) sep jc mv ncn exp dro k ndo =
      expand_df_core st ref cn (-1) sep jc mv ncn exp dro k ndo := by
  simp only [expand_df_st]
  rw [if_neg (by simp [hcn])]
  rw [if_neg (by simp : ¬ (cn ≠ [] ∧ (-1 : Int) ≠ -1))]
  simp only [Bool.false_eq_true, if_false]
  rw [if_neg (by omega)]

lemma Except_bind_ok {α β : Type} (a : α) (f : α → Except PdError β) :
    (Except.ok a : Except PdError α).bind f = f a := rfl

lemma expand_df_name_path (df : DataFrame) (cn sep jc mv ncn : Str) (exp dro : Bool)
    (k : Int) (ndo : Bool) (l : Nat) (texts : List Str)
    (hcn : cn ≠ []) (hk : 0 ≤ k)
    (hloc : getLoc df.cols cn = .ok l)
    (hget : df.rows.map (fun r => r.getD l (Cell.str [])) = texts.map Cell.str)
    (hsep : sep ≠ []) :
    expand_df df cn (-1) sep jc mv ncn exp dro k ndo =
      afterSplitExpand df cn (texts.map (fun t => splitSimple t sep))
        sep jc mv ncn exp dro k ndo := by
  unfold expand_df
  rw [expand_df_st_happy _ _ _ _ _ _ _ _ _ _ _ hcn hk]
  have hdf0 : readObj { objs := [df] } 0 = df := rfl
  simp only [expand_df_core, hdf0]
  rw [if_neg (by simp : ¬ ((-1 : Int) ≠ -1))]
  rw [hloc]
  simp only [Except.map]
  have hcref : readObj (alloc { objs := [df] } df).1 (alloc { objs := [df] } df).2 = df := rfl
  rw [hcref]
  rw [pyIlocCol_ok (getLoc_ok_lt hloc), Except_bind_ok, hget, mapME_split_strs sep hsep texts]
  simp only [afterSplitExpand]
  cases dro <;> cases exp <;> cases ndo <;>
    simp only [Bool.false_eq_true, if_false, eq_self_iff_true, if_true] <;>
    (try rfl) <;>
    (split <;>
      first
        | rfl
        | (split <;> rfl))

lemma mapME_ok_of_no_error {α β : Type} (f : α → Except PdError β) (g : α → β)
    (l : List α) (h : ∀ x ∈ l, f x = .ok (g x)) : mapME f l = .ok (l.map g) := by
  induction l with
  | nil => rfl
  | cons x xs ih =>
    rw [List.map_cons, mapME, h x (by simp)]
    rw [ih (fun y hy => h y (by simp [hy]))]
    rfl

/-- C4 (amended): with a resolvable name selector, a non-empty separator, a
fixed width `k > 0`, at least one row, and every row normalizing to full
width `k` (otherwise the per-row `pd.Series(..., index=name_list)`
constructor raises a length-mismatch `ValueError`), `expand_df` with
`expand = true, new_data_only = true` returns a frame with exactly the `k`
columns `base_0 .. base_{k-1}` and one output row per input row, in order,
each the normalized split of that input row. -/
theorem C4_fixed_width_amended (df : DataFrame) (cn sep jc mv ncn : Str) (dro : Bool)
    (k : Int) (l : Nat) (texts : List Str)
    (hcn : cn ≠ []) (hk : 1 ≤ k)
    (hloc : getLoc df.cols cn = .ok l)
    (hget : df.rows.map (fun r => r.getD l (Cell.str [])) = texts.map Cell.str)
    (hsep : sep ≠ []) (hne : texts ≠ [])
    (hlen : ∀ t ∈ texts,
      (join (splitSimple t sep) (if jc = [] then sep else jc) k mv).length = k.toNat) :
    ∃ d, expand_df df cn (-1) sep jc mv ncn true dro k true = .ok (.df d)
      ∧ d.cols = (List.range k.toNat).map (colLabel (if ncn = [] then cn else ncn))
      ∧ d.cols.length = k.toNat
      ∧ d.rows.length = df.rows.length
      ∧ ∀ i, d.rows.get? i = (texts.get? i).map
          (fun t => (join (splitSimple t sep) (if jc = [] then sep else jc) k mv).map Cell.str) := by
  rw [expand_df_name_path df cn sep jc mv ncn true dro k true l texts hcn (by omega) hloc hget hsep]
  simp only [afterSplitExpand, eq_self_iff_true, if_true]
  have hnil : (texts.map (fun t => splitSimple t sep)).map List.length ≠ [] := by
    simp [hne]
  rw [pyMax_eq hnil]
  dsimp only []
  simp only [if_neg (show ¬ (k = 0) from by omega)]
  have harg : ∀ x ∈ texts.map (fun t => splitSimple t sep),
      (if (join x (if jc = [] then sep else jc) k mv).length =
          ((List.range k.toNat).map (colLabel (if ncn = [] then cn else ncn))).length then
        Except.ok (join x (if jc = [] then sep else jc) k mv)
      else Except.error (PdError.valueError msgLenMismatch)) =
        Except.ok (join x (if jc = [] then sep else jc) k mv) := by
    intro x hx
    rcases List.mem_map.mp hx with ⟨t, ht, rfl⟩
    rw [if_pos]
    rw [List.length_map, List.length_range]
    exact hlen t ht
  have hmm := mapME_ok_of_no_error _ _ _ harg
  rw [hmm]
  refine ⟨_, rfl, rfl, ?_, ?_, ?_⟩
  · simp
  · have := congrArg List.length hget
    simp only [List.length_map] at this
    simp [this]
  · intro i
    simp only [List.get?_map]
    cases texts.get? i <;> rfl

/-- C4 counterexample: on a table with no rows, `expand_df` with `expand=true`
and `maxColumnSplit = 1` does not yield one new column: the auto-width
computation `max(split_data.apply(len))` runs even when a positive width is
given and raises `ValueError` on the empty sequence. -/
theorem C4_empty_table_cex :
    expand_df { cols := [['A']], rows := [] } ['A'] (-1) ['|'] [] ['N', 'A'] []
        true true 1 true = .error (.valueError msgMaxEmpty) := by
  decide

/-- C4 witness: the amended statement on a one-row table. -/
theorem C4_fixed_width_amended_witness :
    ∃ d, expand_df { cols := [['A']], rows := [[Cell.str []]] } ['A'] (-1) ['|'] []
        ['N', 'A'] [] true true 1 true = .ok (.df d) ∧ d.cols.length = (1 : Int).toNat :=
  match C4_fixed_width_amended { cols := [['A']], rows := [[Cell.str []]] } ['A'] ['|'] []
      ['N', 'A'] [] true 1 0 [[]] (by decide) (by decide) (by decide) (by decide)
      (by decide) (by decide) (by decide) with
  | ⟨d, h1, _, h3, _, _⟩ => ⟨d, h1, h3⟩

/-- C3 (amended): with a resolvable name selector, a non-empty separator, at
least one row, and every row normalizing to the full auto width, `expand_df`
with `expand = true, maxColumnSplit = 0` generates exactly as many new columns
as the maximum split-result length across all rows.  On a table with no rows
the call does not succeed with zero columns: it raises `ValueError` (see the
counterexample). -/
theorem C3_auto_width_amended (df : DataFrame) (cn sep jc mv ncn : Str) (dro : Bool)
    (l : Nat) (texts : List Str)
    (hcn : cn ≠ []) (hloc : getLoc df.cols cn = .ok l)
    (hget : df.rows.map (fun r => r.getD l (Cell.str [])) = texts.map Cell.str)
    (hsep : sep ≠ []) (hne : texts ≠ [])
    (hlen : ∀ t ∈ texts,
      (join (splitSimple t sep) (if jc = [] then sep else jc)
        ((maxList (texts.map (fun t => (splitSimple t sep).length)) : Nat) : Int) mv).length =
        maxList (texts.map (fun t => (splitSimple t sep).length))) :
    ∃ d, expand_df df cn (-1) sep jc mv ncn true dro 0 true = .ok (.df d)
      ∧ d.cols.length = maxList (texts.map (fun t => (splitSimple t sep).length))
      ∧ d.rows.length = df.rows.length := by
  rw [expand_df_name_path df cn sep jc mv ncn true dro 0 true l texts hcn le_rfl hloc hget hsep]
  simp only [afterSplitExpand, eq_self_iff_true, if_true]
  have hmap : (texts.map (fun t => splitSimple t sep)).map List.length =
      texts.map (fun t => (splitSimple t sep).length) := by
    rw [List.map_map]
    rfl
  rw [hmap]
  have hnil : texts.map (fun t => (splitSimple t sep).length) ≠ [] := by
    simp [hne]
  rw [pyMax_eq hnil]
  dsimp only []
  simp only [Int.toNat_natCast]
  have harg : ∀ x ∈ texts.map (fun t => splitSimple t sep),
      (if (join x (if jc = [] then sep else jc)
            ((maxList (texts.map (fun t => (splitSimple t sep).length)) : Nat) : Int) mv).length =
          ((List.range (maxList (texts.map (fun t => (splitSimple t sep).length)))).map
            (colLabel (if ncn = [] then cn else ncn))).length then
        Except.ok (join x (if jc = [] then sep else jc)
          ((maxList (texts.map (fun t => (splitSimple t sep).length)) : Nat) : Int) mv)
      else Except.error (PdError.valueError msgLenMismatch)) =
        Except.ok (join x (if jc = [] then sep else jc)
          ((maxList (texts.map (fun t => (splitSimple t sep).length)) : Nat) : Int) mv) := by
    intro x hx
    rcases List.mem_map.mp hx with ⟨t, ht, rfl⟩
    rw [if_pos]
    rw [List.length_map, List.length_range]
    exact hlen t ht
  have hmm := mapME_ok_of_no_error _ _ _ harg
  rw [hmm]
  refine ⟨_, rfl, ?_, ?_⟩
  · simp
  · have := congrArg List.length hget
    simp only [List.length_map] at this
    simp [this]

/-- C3 counterexample: on a table with no rows and `maxColumnSplit = 0`, the
call does not succeed with zero new columns: `max(split_data.apply(len))`
raises `ValueError: max() arg is an empty sequence`. -/
theorem C3_empty_table_cex :
    expand_df { cols := [['A']], rows := [] } ['A'] (-1) ['|'] [] ['N', 'A'] []
        true true 0 true = .error (.valueError msgMaxEmpty) := by
  decide

/-- C3 witness: the amended statement on a one-row table. -/
theorem C3_auto_width_amended_witness :
    ∃ d, expand_df { cols := [['A']], rows := [[Cell.str []]] } ['A'] (-1) ['|'] []
        ['N', 'A'] [] true true 0 true = .ok (.df d)
      ∧ d.cols.length = maxList ([([] : Str)].map (fun t => (splitSimple t ['|']).length))
      ∧ d.rows.length = ({ cols := [['A']], rows := [[Cell.str []]] } : DataFrame).rows.length :=
  C3_auto_width_amended { cols := [['A']], rows := [[Cell.str []]] } ['A'] ['|'] []
    ['N', 'A'] [] true 0 [[]] (by decide) (by decide) (by decide) (by decide)
    (by decide) (by decide)

lemma getLoc_of_contains (cols : List Str) (n : Str) (h : cols.contains n = true) :
    ∃ i, getLoc cols n = .ok i ∧ i < cols.length ∧ cols.getD i [] = n := by
  induction cols with
  | nil => simp at h
  | cons c rest ih =>
    by_cases hc : c = n
    · exact ⟨0, by simp [getLoc, hc], by simp, by simp [hc]⟩
    · have h' : rest.contains n = true := by
        simp only [List.contains_cons] at h
        rcases Bool.or_eq_true_iff.mp h with h1 | h1
        · exact absurd (beq_iff_eq.mp h1).symm hc
        · exact h1
      obtain ⟨i, h1, h2, h3⟩ := ih h'
      refine ⟨i + 1, ?_, ?_, ?_⟩
      · simp [getLoc, hc, h1, Except.map]
      · simp only [List.length_cons]
        omega
      · simpa using h3

lemma getLoc_append_self (cols : List Str) (n : Str) (h : cols.contains n = false) :
    getLoc (cols ++ [n]) n = .ok cols.length := by
  induction cols with
  | nil => simp [getLoc]
  | cons c rest ih =>
    rw [List.contains_cons] at h
    obtain ⟨h1, h2⟩ := Bool.or_eq_false_iff.mp h
    have hc : ¬ (c = n) := fun hcn => by subst hcn; simp at h1
    rw [List.cons_append, getLoc, if_neg hc, ih h2]
    simp [Except.map]

lemma map_getD_zip_set (cols : List Str) (n : Str) (i : Nat) (rows : List (List Cell))
    (vals : List Cell) (hwf : ∀ r ∈ rows, r.length = cols.length)
    (hv : vals.length = rows.length) (hi : i < cols.length) (hcol : cols.getD i [] = n) :
    (rows.zipWith (fun row v => (cols.zip row).map (fun p => if p.1 = n then v else p.2)) vals).map
      (fun r => r.getD i (Cell.str [])) = vals := by
  induction rows generalizing vals with
  | nil =>
    cases vals with
    | nil => rfl
    | cons v vs => simp at hv
  | cons row rows ih =>
    cases vals with
    | nil => simp at hv
    | cons v vs =>
      simp only [List.zipWith_cons_cons, List.map_cons]
      have hrow : row.length = cols.length := hwf row (by simp)
      have hzi : i < (cols.zip row).length := by
        rw [List.length_zip]
        omega
      have hhead : ((cols.zip row).map (fun p => if p.1 = n then v else p.2)).getD i
          (Cell.str []) = v := by
        rw [List.getD_eq_getElem?_getD, List.getElem?_map]
        rw [List.getElem?_eq_getElem hzi]
        simp only [Option.map_some', Option.getD_some, List.getElem_zip]
        have hcn : cols[i] = n := (List.getD_eq_getElem cols [] hi).symm.trans hcol
        simp [hcn]
      rw [hhead]
      congr 1
      exact ih vs (fun r hr => hwf r (by simp [hr])) (by simpa using hv)

lemma map_getD_zip_append (m : Nat) (rows : List (List Cell)) (vals : List Cell)
    (hwf : ∀ r ∈ rows, r.length = m) (hv : vals.length = rows.length) :
    (rows.zipWith (fun row v => row ++ [v]) vals).map (fun r => r.getD m (Cell.str [])) =
      vals := by
  induction rows generalizing vals with
  | nil =>
    cases vals with
    | nil => rfl
    | cons v vs => simp at hv
  | cons row rows ih =>
    cases vals with
    | nil => simp at hv
    | cons v vs =>
      simp only [List.zipWith_cons_cons, List.map_cons]
      have hrow : row.length = m := hwf row (by simp)
      have hhead : (row ++ [v]).getD m (Cell.str []) = v := by
        rw [List.getD_eq_getElem?_getD, List.getElem?_append_right (by omega)]
        rw [hrow]
        simp
      rw [hhead]
      congr 1
      exact ih vs (fun r hr => hwf r (by simp [hr])) (by simpa using hv)

lemma filter_zip_length (cols : List Str) (row : List Cell) (n : Str)
    (h : row.length = cols.length) :
    ((cols.zip row).filter (fun p => p.1 != n)).length =
      (cols.filter (fun c => c != n)).length := by
  induction cols generalizing row with
  | nil =>
    cases row with
    | nil => rfl
    | cons x xs => simp at h
  | cons c cs ih =>
    cases row with
    | nil => simp at h
    | cons x xs =>
      have h' : xs.length = cs.length := by
        simp only [List.length_cons] at h
        omega
      simp only [List.zip_cons_cons, List.filter_cons]
      cases hb : (c != n) <;> simp [hb, ih xs h']

lemma dropCol_WF (df : DataFrame) (n : Str) (h : df.WF) : (dropCol df n).WF := by
  intro r hr
  simp only [dropCol] at hr ⊢
  rcases List.mem_map.mp hr with ⟨row, hrow, rfl⟩
  simp only [List.length_map]
  exact filter_zip_length df.cols row n (h row hrow)

lemma dropCol_rows_length (df : DataFrame) (n : Str) :
    (dropCol df n).rows.length = df.rows.length := by
  simp [dropCol]

lemma getColVals_setCol (df : DataFrame) (n : Str) (vals : List Cell)
    (hwf : df.WF) (hv : vals.length = df.rows.length) :
    getColVals (setCol df n vals) n = vals ∧ (setCol df n vals).cols.contains n = true := by
  by_cases hc : df.cols.contains n = true
  · constructor
    · simp only [setCol, hc, if_true, getColVals]
      obtain ⟨i, h1, h2, h3⟩ := getLoc_of_contains df.cols n hc
      rw [h1]
      exact map_getD_zip_set df.cols n i df.rows vals hwf hv h2 h3
    · have hmem : n ∈ df.cols := by simpa using hc
      simp [setCol, hmem]
  · have hcf : df.cols.contains n = false := by
      revert hc
      cases df.cols.contains n <;> simp
    constructor
    · simp only [setCol, hcf, Bool.false_eq_true, if_false, getColVals]
      rw [getLoc_append_self df.cols n hcf]
      exact map_getD_zip_append df.cols.length df.rows vals hwf hv
    · have hnmem : ¬ n ∈ df.cols := by simpa using hcf
      simp [setCol, hnmem]

/-- C5 counterexample: with `expand = false, new_data_only = true` and an
explicit `newColumnBaseName` of `"Y"`, the result is the split-data series
still named after the source column `"A"` (the name `apply` preserves), not a
column named `"Y"` as the claim requires. -/
theorem C5_series_name_cex :
    expand_df { cols := [['A']], rows := [[Cell.str []]] } ['A'] (-1) ['|'] [] ['N', 'A'] ['Y']
        false true 0 true = .ok (.series ['A'] [Cell.strList []])
    ∧ (['A'] : Str) ≠ ['Y'] := by
  decide

/-- C5 (amended): with `expand = false` (resolvable name selector, non-empty
separator, well-formed table), every row's new value is its split result; with
`newDataOnly = false` it is stored in the single column named
`newColumnBaseName` (appended, or replacing an existing column of that name);
but with `newDataOnly = true` the result is the bare value series named after
the SOURCE column, not after `newColumnBaseName`. -/
theorem C5_no_expand_amended (df : DataFrame) (cn sep jc mv ncn : Str) (dro : Bool)
    (k : Int) (l : Nat) (texts : List Str)
    (hcn : cn ≠ []) (hk : 0 ≤ k) (hloc : getLoc df.cols cn = .ok l)
    (hget : df.rows.map (fun r => r.getD l (Cell.str [])) = texts.map Cell.str)
    (hsep : sep ≠ []) (hwf : df.WF) :
    expand_df df cn (-1) sep jc mv ncn false dro k true =
      .ok (.series cn (texts.map (fun t => Cell.strList (splitSimple t sep))))
    ∧ ∃ d, expand_df df cn (-1) sep jc mv ncn false dro k false = .ok (.df d)
        ∧ d.cols.contains (if ncn = [] then cn else ncn) = true
        ∧ getColVals d (if ncn = [] then cn else ncn) =
            texts.map (fun t => Cell.strList (splitSimple t sep)) := by
  have hmaps : (texts.map (fun t => splitSimple t sep)).map Cell.strList =
      texts.map (fun t => Cell.strList (splitSimple t sep)) := by
    rw [List.map_map]
    rfl
  constructor
  · rw [expand_df_name_path df cn sep jc mv ncn false dro k true l texts hcn hk hloc hget hsep]
    simp only [afterSplitExpand, Bool.false_eq_true, if_false, eq_self_iff_true, if_true]
    rw [hmaps]
  · rw [expand_df_name_path df cn sep jc mv ncn false dro k false l texts hcn hk hloc hget hsep]
    simp only [afterSplitExpand, Bool.false_eq_true, if_false, eq_self_iff_true, if_true]
    have hwf1 : (if dro = true then dropCol df cn else df).WF := by
      cases dro
      · simpa using hwf
      · simpa using dropCol_WF df cn hwf
    have hlen0 : texts.length = df.rows.length := by
      have := congrArg List.length hget
      simp only [List.length_map] at this
      omega
    have hv : ((texts.map (fun t => splitSimple t sep)).map Cell.strList).length =
        (if dro = true then dropCol df cn else df).rows.length := by
      cases dro
      · simpa using hlen0
      · simp only [eq_self_iff_true, if_true, dropCol_rows_length]
        simpa using hlen0
    obtain ⟨hA, hB⟩ := getColVals_setCol (if dro = true then dropCol df cn else df)
      (if ncn = [] then cn else ncn) ((texts.map (fun t => splitSimple t sep)).map Cell.strList)
      hwf1 hv
    refine ⟨_, rfl, hB, ?_⟩
    rw [hA, hmaps]

/-- C5 witness: the amended statement on a one-row table with
`newColumnBaseName = "Y"`. -/
theorem C5_no_expand_amended_witness :
    expand_df { cols := [['A']], rows := [[Cell.str []]] } ['A'] (-1) ['|'] [] ['N', 'A'] ['Y']
        false true 0 true =
      .ok (.series ['A'] ([([] : Str)].map (fun t => Cell.strList (splitSimple t ['|']))))
    ∧ ∃ d, expand_df { cols := [['A']], rows := [[Cell.str []]] } ['A'] (-1) ['|'] [] ['N', 'A']
          ['Y'] false true 0 false = .ok (.df d)
        ∧ d.cols.contains (if (['Y'] : Str) = [] then ['A'] else ['Y']) = true
        ∧ getColVals d (if (['Y'] : Str) = [] then ['A'] else ['Y']) =
            [([] : Str)].map (fun t => Cell.strList (splitSimple t ['|'])) :=
  C5_no_expand_amended { cols := [['A']], rows := [[Cell.str []]] } ['A'] ['|'] [] ['N', 'A']
    ['Y'] true 0 0 [[]] (by decide) (by decide) (by decide) (by decide) (by decide)
    (by intro r hr; simp only [List.mem_singleton] at hr; subst hr; rfl)

lemma except_map_error {α β : Type} {x : Except PdError α} {f : α → β} {e : PdError}
    (h : x.map f = .error e) : x = .error e := by
  cases x with
  | error e' =>
    simp only [Except.map] at h
    injection h with h'
    rw [h']
  | ok a => simp [Except.map] at h

lemma except_bind_error {α β : Type} {x : Except PdError α} {f : α → Except PdError β}
    {e : PdError} (h : x.bind f = .error e) :
    x = .error e ∨ ∃ a, x = .ok a ∧ f a = .error e := by
  cases x with
  | error e' =>
    simp only [Except.bind] at h
    injection h with h'
    exact Or.inl (by rw [h'])
  | ok a => exact Or.inr ⟨a, rfl, by simpa [Except.bind] using h⟩

lemma pyNormIdx_error {len : Nat} {i : Int} {e : PdError} (h : pyNormIdx len i = .error e) :
    e = .indexError "single positional indexer is out-of-bounds" := by
  simp only [pyNormIdx] at h
  repeat' split at h
  all_goals
    first
      | (injection h with h'; exact h'.symm)
      | injection h

lemma pyColLabel_error {cols : List Str} {i : Int} {e : PdError}
    (h : pyColLabel cols i = .error e) :
    e = .indexError "single positional indexer is out-of-bounds" :=
  pyNormIdx_error (except_map_error h)

lemma pyIlocCol_error {df : DataFrame} {i : Int} {e : PdError}
    (h : pyIlocCol df i = .error e) :
    e = .indexError "single positional indexer is out-of-bounds" :=
  pyNormIdx_error (except_map_error h)

lemma mapME_error {α β : Type} {f : α → Except PdError β} {l : List α} {e : PdError}
    (h : mapME f l = .error e) : ∃ x ∈ l, f x = .error e := by
  induction l with
  | nil => simp [mapME] at h
  | cons x xs ih =>
    rw [mapME] at h
    rcases hfx : f x with e' | b
    · rw [hfx] at h
      injection h with h'
      exact ⟨x, by simp, by rw [hfx, h']⟩
    · rw [hfx] at h
      obtain ⟨y, hy, hfy⟩ := ih (except_map_error h)
      exact ⟨y, by simp [hy], hfy⟩

lemma split_error {t sep : Str} {e : PdError} (h : split t sep = .error e) :
    e = .valueError "empty separator" := by
  unfold split at h
  split at h
  · exact absurd h (by simp)
  · split at h
    · injection h with h'
      rw [h']
    · exact absurd h (by simp)

lemma cell_split_error {c : Cell} {sep : Str} {e : PdError}
    (h : (cellStr c).bind (fun s => split s sep) = .error e) :
    e = .attributeError "object has no attribute split" ∨ e = .valueError "empty separator" := by
  cases c with
  | strList l =>
    simp only [cellStr, Except.bind] at h
    injection h with h'
    exact Or.inl (by rw [h'])
  | str s =>
    simp only [cellStr, Except.bind] at h
    exact Or.inr (split_error h)

lemma pyMax_error {l : List Nat} {e : PdError} (h : pyMax l = .error e) :
    e = .valueError "max() arg is an empty sequence" := by
  cases l with
  | nil =>
    injection h with h'
    rw [h']
  | cons x xs => exact absurd h (by simp [pyMax])

lemma core_not_validation (st : Store) (ref : Nat) (cn : Str) (ci : Int)
    (sep jc mv ncn : Str) (exp dro : Bool) (k : Int) (ndo : Bool) :
    ¬ isArgValidationError (expand_df_core st ref cn ci sep jc mv ncn exp dro k ndo).2 := by
  simp only [expand_df_core]
  split
  · -- selector resolution failed: KeyError or IndexError
    rename_i e heq
    have hshape : (∃ m, e = PdError.indexError m) ∨ (∃ m, e = PdError.keyError m) := by
      split at heq
      · exact Or.inl ⟨_, pyColLabel_error (except_map_error heq)⟩
      · exact Or.inr ⟨_, by rw [getLoc_error (except_map_error heq)]⟩
    rcases hshape with ⟨m, rfl⟩ | ⟨m, rfl⟩ <;> simp [isArgValidationError]
  · -- selector resolved
    split
    · -- splitting the column failed: IndexError, AttributeError, or empty separator
      rename_i e heq
      rcases except_bind_error heq with h1 | ⟨cells, _, h2⟩
      · rw [pyIlocCol_error h1]
        simp [isArgValidationError]
      · obtain ⟨c, _, hc⟩ := mapME_error h2
        rcases cell_split_error hc with rfl | rfl <;>
          simp [isArgValidationError, msgNeedOne, msgBoth, msgNonneg]
    · -- split data in hand; branch on expand
      split
      · -- expand = true
        split
        · -- max over the empty split series
          rename_i e heq
          rw [pyMax_error heq]
          simp [isArgValidationError, msgNeedOne, msgBoth, msgNonneg]
        · split
          · -- a row whose normalized width mismatches
            rename_i e heq
            obtain ⟨x, _, hx⟩ := mapME_error heq
            have he : e = .valueError msgLenMismatch := by
              repeat' split at hx
              all_goals
                first
                  | (injection hx with h'; exact h'.symm)
                  | injection hx
            rw [he]
            simp [isArgValidationError, msgNeedOne, msgBoth, msgNonneg, msgLenMismatch]
          · split <;> simp [isArgValidationError]
      · -- expand = false
        split <;> simp [isArgValidationError]

lemma readObj_one (df : DataFrame) : readObj { objs := [df] } 0 = df := rfl

lemma expand_df_missing (df : DataFrame) (cn : Str) (ci : Int) (sep jc mv ncn : Str)
    (exp dro : Bool) (k : Int) (ndo : Bool) (h : selectorMissing cn ci) :
    expand_df df cn ci sep jc mv ncn exp dro k ndo = .error (.valueError msgNeedOne) := by
  obtain ⟨h1, h2⟩ := h
  simp [expand_df, expand_df_st, h1, h2]

lemma expand_df_ambiguous (df : DataFrame) (cn : Str) (ci : Int) (sep jc mv ncn : Str)
    (exp dro : Bool) (k : Int) (ndo : Bool) (h : selectorAmbiguous df.cols cn ci) :
    expand_df df cn ci sep jc mv ncn exp dro k ndo = .error (.valueError msgBoth) := by
  obtain ⟨h1, h2, l, hl, hne⟩ := h
  unfold expand_df expand_df_st
  simp only [readObj_one]
  rw [if_neg (by simp [h1] : ¬ (cn = [] ∧ ci = -1))]
  rw [if_pos ⟨h1, h2⟩, hl]
  simp only [Except.map]
  simp [bne_iff_ne.mpr hne]

lemma expand_df_keyError (df : DataFrame) (cn : Str) (ci : Int) (sep jc mv ncn : Str)
    (exp dro : Bool) (k : Int) (ndo : Bool) (e : PdError)
    (hboth : cn ≠ [] ∧ ci ≠ -1) (hgl : getLoc df.cols cn = .error e) :
    expand_df df cn ci sep jc mv ncn exp dro k ndo = .error e := by
  unfold expand_df expand_df_st
  simp only [readObj_one]
  rw [if_neg (by simp [hboth.1] : ¬ (cn = [] ∧ ci = -1))]
  rw [if_pos hboth, hgl]
  simp [Except.map]

lemma expand_df_resolvable_neg (df : DataFrame) (cn : Str) (ci : Int) (sep jc mv ncn : Str)
    (exp dro : Bool) (k : Int) (ndo : Bool)
    (h : selectorResolvable df.cols cn ci) (hk : k < 0) :
    expand_df df cn ci sep jc mv ncn exp dro k ndo = .error (.valueError msgNonneg) := by
  obtain ⟨hnm, himp⟩ := h
  unfold expand_df expand_df_st
  simp only [readObj_one]
  rw [if_neg (show ¬ (cn = [] ∧ ci = -1) from hnm)]
  by_cases hboth : cn ≠ [] ∧ ci ≠ -1
  · obtain ⟨l, hl, heq⟩ := himp hboth
    rw [if_pos hboth, hl]
    simp only [Except.map]
    simp [heq, hk]
  · rw [if_neg hboth]
    simp [hk]

lemma expand_df_resolvable_ok (df : DataFrame) (cn : Str) (ci : Int) (sep jc mv ncn : Str)
    (exp dro : Bool) (k : Int) (ndo : Bool)
    (h : selectorResolvable df.cols cn ci) (hk : 0 ≤ k) :
    ¬ isArgValidationError (expand_df df cn ci sep jc mv ncn exp dro k ndo) := by
  obtain ⟨hnm, himp⟩ := h
  unfold expand_df expand_df_st
  simp only [readObj_one]
  rw [if_neg (show ¬ (cn = [] ∧ ci = -1) from hnm)]
  by_cases hboth : cn ≠ [] ∧ ci ≠ -1
  · obtain ⟨l, hl, heq⟩ := himp hboth
    rw [if_pos hboth, hl]
    simp only [Except.map]
    have hb : (ci != (l : Int)) = false := by simp [heq]
    simp only [hb, Bool.false_eq_true, if_false]
    rw [if_neg (by omega : ¬ k < 0)]
    exact core_not_validation { objs := [df] } 0 cn ci sep jc mv ncn exp dro k ndo
  · rw [if_neg hboth]
    simp only [Bool.false_eq_true, if_false]
    rw [if_neg (by omega : ¬ k < 0)]
    exact core_not_validation { objs := [df] } 0 cn ci sep jc mv ncn exp dro k ndo

/-- C2 counterexample: with three columns `A,B,C`, the name `"B"` and the
index `-2` both resolve (pandas-style, with negative indexing) to the same
column `B` at position 1, yet the call is rejected with the
"cannot specify both" error: the source compares the raw `-2` against
`get_loc`'s `1` without normalising. -/
theorem C2_negative_index_cex :
    expand_df { cols := [['A'], ['B'], ['C']], rows := [] } ['B'] (-2) ['|'] [] ['N', 'A'] []
        true true 0 true = .error (.valueError msgBoth)
    ∧ pyColLabel [['A'], ['B'], ['C']] (-2) = .ok ['B']
    ∧ getLoc [['A'], ['B'], ['C']] ['B'] = .ok 1 := by
  decide

/-- C2 (amended): `expand_df` raises one of its three argument-validation
errors iff the selector is missing, or both name and index are given and the
raw index differs from the name's position (so a negative index equal to the
name's position after normalisation is still rejected), or the selector
passes and `maxColumnSplit < 0`; each of those errors is raised before any
table data is read (the outcome is the same for every row content).  Later
failures (unknown name, out-of-range index, empty table under `expand`,
mis-sized rows, empty separator) surface as different errors. -/
theorem C2_validation_amended (df : DataFrame) (cn : Str) (ci : Int)
    (sep jc mv ncn : Str) (exp dro : Bool) (k : Int) (ndo : Bool) :
    (isArgValidationError (expand_df df cn ci sep jc mv ncn exp dro k ndo) ↔
      (selectorMissing cn ci ∨ selectorAmbiguous df.cols cn ci ∨
        (selectorResolvable df.cols cn ci ∧ k < 0)))
    ∧ (selectorMissing cn ci → ∀ rows',
        expand_df { cols := df.cols, rows := rows' } cn ci sep jc mv ncn exp dro k ndo =
          .error (.valueError msgNeedOne))
    ∧ (selectorAmbiguous df.cols cn ci → ∀ rows',
        expand_df { cols := df.cols, rows := rows' } cn ci sep jc mv ncn exp dro k ndo =
          .error (.valueError msgBoth))
    ∧ (selectorResolvable df.cols cn ci → k < 0 → ∀ rows',
        expand_df { cols := df.cols, rows := rows' } cn ci sep jc mv ncn exp dro k ndo =
          .error (.valueError msgNonneg)) := by
  refine ⟨⟨?_, ?_⟩, ?_, ?_, ?_⟩
  · intro hval
    by_cases hmiss : selectorMissing cn ci
    · exact Or.inl hmiss
    by_cases hboth : cn ≠ [] ∧ ci ≠ -1
    · rcases hgl : getLoc df.cols cn with e | lv
      · exact absurd hval (by
          rw [expand_df_keyError df cn ci sep jc mv ncn exp dro k ndo e hboth hgl]
          have he := getLoc_error hgl
          subst he
          simp [isArgValidationError])
      · by_cases hmm2 : ci = (lv : Int)
        · have hres : selectorResolvable df.cols cn ci := ⟨hmiss, fun _ => ⟨lv, hgl, hmm2⟩⟩
          by_cases hk : k < 0
          · exact Or.inr (Or.inr ⟨hres, hk⟩)
          · exact absurd hval
              (expand_df_resolvable_ok df cn ci sep jc mv ncn exp dro k ndo hres (by omega))
        · exact Or.inr (Or.inl ⟨hboth.1, hboth.2, lv, hgl, hmm2⟩)
    · have hres : selectorResolvable df.cols cn ci := ⟨hmiss, fun hb => absurd hb hboth⟩
      by_cases hk : k < 0
      · exact Or.inr (Or.inr ⟨hres, hk⟩)
      · exact absurd hval
          (expand_df_resolvable_ok df cn ci sep jc mv ncn exp dro k ndo hres (by omega))
  · intro h
    rcases h with hm | ha | ⟨hr, hk⟩
    · exact Or.inl (expand_df_missing df cn ci sep jc mv ncn exp dro k ndo hm)
    · exact Or.inr (Or.inl (expand_df_ambiguous df cn ci sep jc mv ncn exp dro k ndo ha))
    · exact Or.inr (Or.inr (expand_df_resolvable_neg df cn ci sep jc mv ncn exp dro k ndo hr hk))
  · intro hm rows'
    exact expand_df_missing { cols := df.cols, rows := rows' } cn ci sep jc mv ncn
      exp dro k ndo hm
  · intro ha rows'
    exact expand_df_ambiguous { cols := df.cols, rows := rows' } cn ci sep jc mv ncn
      exp dro k ndo ha
  · intro hr hk rows'
    exact expand_df_resolvable_neg { cols := df.cols, rows := rows' } cn ci sep jc mv ncn
      exp dro k ndo hr hk

/-- C2 witness: the missing-selector case on a concrete one-column table. -/
theorem C2_validation_amended_witness :
    expand_df { cols := [['A']], rows := [] } [] (-1) ['|'] [] ['N', 'A'] [] true true 0 true =
      .error (.valueError msgNeedOne) := by
  exact (C2_validation_amended { cols := [['A']], rows := [] } [] (-1) ['|'] [] ['N', 'A'] []
    true true 0 true).2.1 ⟨rfl, rfl⟩ []
